import Mathlib

/-!
Verification of the three-species NSE (nuclear statistical equilibrium)
solver: free neutrons, free protons and alpha particles, solved from the
mass density `rho` (g/cm^3), the temperature `T` (MeV) and the proton
fraction `yp`.

The numerical code is embedded shallowly over the real numbers: every
floating-point expression of the source becomes the corresponding real
expression, `numpy` logarithms and exponentials become `Real.log` and
`Real.exp`, and the fractional power `** 1.5` becomes `Real.rpow`.  The
external root-finder (`scipy.optimize.fsolve`) is not embedded; the
residual system handed to it and the guess construction that seeds it are,
and claims about the solve are treated at the level of exact roots of the
residual system.

For the behaviour of the guess phase on invalid inputs a second embedding
of the same source lines is given over `Option ℝ`, where `none` models an
IEEE NaN: `np.log` of a negative number is NaN (a warning, not an
exception), NaN propagates through arithmetic, and every comparison
involving a NaN is false.  On inputs where no NaN (and no infinity)
arises the two embeddings coincide; the `Option` one is exact on the
concrete invalid input considered below, where the only non-finite values
produced are the NaNs of logarithms of negative densities.
-/

namespace NSE

/-- Source constant `mamuc2`: atomic mass unit rest energy, MeV. -/
def mamuc2 : ℝ := 931.494103

/-- Source constant `mamu_grams`: atomic mass unit, grams. -/
def mamu_grams : ℝ := 1.66053907e-24

/-- Source constant `Navo`: Avogadro's number. -/
def Navo : ℝ := 6.02214076e23

/-- Source constant `hc`: Planck constant times speed of light, MeV cm. -/
def hc : ℝ := 1.24e-10

/-- The quantum concentration expression appearing (inlined, identically)
in the source functions `X` and `mu`:
`nQ = (2*np.pi*xT*xA*mamuc2/hc**2)**(1.5)`. -/
noncomputable def nQ (T A : ℝ) : ℝ :=
  (2 * Real.pi * T * A * mamuc2 / hc ^ 2) ^ (1.5 : ℝ)

/-- Source function `X(xmu, xA, xrho, xT)`: the mass fraction of a species
of mass number `xA` with chemical potential `xmu`, at density `xrho` and
temperature `xT`:
`return xA/(xrho*Navo)*nQ*np.exp(xmu/xT)`. -/
noncomputable def X (xmu xA xrho xT : ℝ) : ℝ :=
  xA / (xrho * Navo) * nQ xT xA * Real.exp (xmu / xT)

/-- Source function `mualpha(mun, mup)`: the NSE chemical potential of the
alpha particle, `return 2*mun+2*mup+28.3`. -/
def mualpha (mun mup : ℝ) : ℝ := 2 * mun + 2 * mup + 28.3

/-- Source function `mu(T, n, A)`: chemical potential from number density,
`return T*np.log(n/nQ)`. -/
noncomputable def mu (T n A : ℝ) : ℝ := T * Real.log (n / nQ T A)

/-- The residual system `LS(x)` defined inside `get_Xs` and handed to
`fsolve`, with the unknown vector `x = (mu_p, mu_n, mu_alpha)`:

`return [1-X(x[0],1,rho,T)-X(x[1],1,rho,T)-X(x[2],4,rho,T),`
`        yp-X(x[0],1,rho,T)-X(x[2],4,rho,T)/2.,`
`        x[2]-mualpha(x[1],x[0])]`. -/
noncomputable def LS (rho T yp : ℝ) (x : ℝ × ℝ × ℝ) : ℝ × ℝ × ℝ :=
  (1 - X x.1 1 rho T - X x.2.1 1 rho T - X x.2.2 4 rho T,
   yp - X x.1 1 rho T - X x.2.2 4 rho T / 2,
   x.2.2 - mualpha x.2.1 x.1)

/-- The guess-construction phase of `get_Xs(rho, T, yp)`: the baseline
all-free-nucleon guess followed by the alpha-dominant recomputation,
transcribed statement by statement from the source.  The source's
`elif yp >= 0.5` is the `else` branch here: over the reals the two guards
`yp < 0.5` and `yp >= 0.5` are exhaustive, so the transcription is exact.
Returns the seed triple `(mupguess, munguess, mualphaguess)`. -/
noncomputable def get_Xs_guess (rho T yp : ℝ) : ℝ × ℝ × ℝ :=
  let npguess := yp * rho / mamu_grams
  let nnguess := (1 - yp) * rho / mamu_grams
  let mupguess := mu T npguess 1
  let munguess := mu T nnguess 1
  let mualphaguess := mualpha munguess mupguess
  if mualphaguess > munguess then
    if yp < 0.5 then
      let npguess2 := min 0.01 yp * rho / mamu_grams
      let nnguess2 := 2.0 * (0.5 - yp) * rho / mamu_grams
      let mupguess2 := mu T npguess2 1
      let munguess2 := mu T nnguess2 1
      (mupguess2, munguess2, mualpha munguess2 mupguess2)
    else
      let nnguess2 := min 0.01 (1.0 - yp) * rho / mamu_grams
      let npguess2 := 2.0 * (yp - 0.499) * rho / mamu_grams
      let mupguess2 := mu T npguess2 1
      let munguess2 := mu T nnguess2 1
      (mupguess2, munguess2, mualpha munguess2 mupguess2)
  else (mupguess, munguess, mualphaguess)

/-- The mass-fraction recovery at the end of `get_Xs`, applied to whatever
triple `values = (mu_p, mu_n, mu_alpha)` the root-finder returned:
`Xp = X(values[0],1,rho,T); Xn = X(values[1],1,rho,T);`
`Xa = X(values[2],4,rho,T)`. -/
noncomputable def recoverX (rho T : ℝ) (v : ℝ × ℝ × ℝ) : ℝ × ℝ × ℝ :=
  (X v.1 1 rho T, X v.2.1 1 rho T, X v.2.2 4 rho T)

/-- The baseline all-free-nucleon guess, as the spec describes step 1 of
the guess construction: `n_p = Y_p*rho/m_amu`, `n_n = (1-Y_p)*rho/m_amu`,
converted by `potentialFromNumberDensity` (the source `mu`), with the
alpha potential from `alphaPotentialFromConstituents` (the source
`mualpha`). -/
noncomputable def baselineGuess (rho T yp : ℝ) : ℝ × ℝ × ℝ :=
  (mu T (yp * rho / mamu_grams) 1,
   mu T ((1 - yp) * rho / mamu_grams) 1,
   mualpha (mu T ((1 - yp) * rho / mamu_grams) 1)
     (mu T (yp * rho / mamu_grams) 1))

/-- The alpha-dominant recomputed guess, as the spec describes step 2 of
the guess construction: for `Y_p < 0.5` the free-proton density is capped
at `min(0.01, Y_p)*rho/m_amu` and the free-neutron density scaled to
`2*(0.5-Y_p)*rho/m_amu`; for `Y_p >= 0.5` the free-neutron density is
capped at `min(0.01, 1-Y_p)*rho/m_amu` and the free-proton density scaled
to `2*(Y_p-0.499)*rho/m_amu`; both converted as in the baseline. -/
noncomputable def alphaDominantGuess (rho T yp : ℝ) : ℝ × ℝ × ℝ :=
  if yp < 0.5 then
    (mu T (min 0.01 yp * rho / mamu_grams) 1,
     mu T (2 * (0.5 - yp) * rho / mamu_grams) 1,
     mualpha (mu T (2 * (0.5 - yp) * rho / mamu_grams) 1)
       (mu T (min 0.01 yp * rho / mamu_grams) 1))
  else
    (mu T (2 * (yp - 0.499) * rho / mamu_grams) 1,
     mu T (min 0.01 (1 - yp) * rho / mamu_grams) 1,
     mualpha (mu T (min 0.01 (1 - yp) * rho / mamu_grams) 1)
       (mu T (2 * (yp - 0.499) * rho / mamu_grams) 1))

/-- The domain-validity predicate of the spec: `rho > 0`, `T > 0` and
`Y_p` strictly inside `(0, 1)`. -/
def validDomain (rho T yp : ℝ) : Prop :=
  0 < rho ∧ 0 < T ∧ 0 < yp ∧ yp < 1

/-- A temperature at which the quantum concentration for mass number 1
equals one; it lets the guess phase be evaluated in closed form. -/
noncomputable def T0 : ℝ := hc ^ 2 / (2 * Real.pi * mamuc2)

/-- NaN-aware comparison: the source guard `mualphaguess > munguess` under
IEEE semantics.  It holds only when both operands are actual numbers and
the first strictly exceeds the second; any comparison with a NaN
(`none`) is false, as in `numpy`. -/
def fgt (a b : Option ℝ) : Prop :=
  ∃ x y, a = some x ∧ b = some y ∧ y < x

/-- NaN-aware embedding of the guess-phase conversion `mu(T, n, 1)`
(every `mu` call in the guess phase has `A = 1`): for a positive argument
of the logarithm it is the exact real value; otherwise `np.log` does not
return a finite number (NaN for a negative argument, the case exercised
below; `-inf` for zero, which this model also sends to the non-finite
marker `none`). -/
noncomputable def muF (T n : ℝ) : Option ℝ :=
  if 0 < n / nQ T 1 then some (mu T n 1) else none

/-- NaN-aware embedding of `mualpha`: the finite arithmetic is exact and
a NaN operand makes the result NaN. -/
def mualphaF (mun mup : Option ℝ) : Option ℝ :=
  Option.map₂ mualpha mun mup

open scoped Classical

/-- The guess-construction phase of `get_Xs` embedded with IEEE NaN
semantics (`none` = NaN): the same source lines as `get_Xs_guess`, with
`mu` replaced by `muF`, `mualpha` by `mualphaF`, and the source guard
`mualphaguess > munguess` by the NaN-aware `fgt`, which is false whenever
either operand is NaN — so a NaN baseline guess keeps the `else` branch,
exactly as in `numpy`.  The number densities themselves are ordinary
(finite) reals throughout. -/
noncomputable def get_Xs_guessF (rho T yp : ℝ) :
    Option ℝ × Option ℝ × Option ℝ :=
  let npguess := yp * rho / mamu_grams
  let nnguess := (1 - yp) * rho / mamu_grams
  let mupguess := muF T npguess
  let munguess := muF T nnguess
  let mualphaguess := mualphaF munguess mupguess
  if fgt mualphaguess munguess then
    if yp < 0.5 then
      let npguess2 := min 0.01 yp * rho / mamu_grams
      let nnguess2 := 2.0 * (0.5 - yp) * rho / mamu_grams
      (muF T npguess2, muF T nnguess2,
        mualphaF (muF T nnguess2) (muF T npguess2))
    else
      let nnguess2 := min 0.01 (1.0 - yp) * rho / mamu_grams
      let npguess2 := 2.0 * (yp - 0.499) * rho / mamu_grams
      (muF T npguess2, muF T nnguess2,
        mualphaF (muF T nnguess2) (muF T npguess2))
  else (mupguess, munguess, mualphaguess)

/-- The baseline guess in the NaN-aware embedding. -/
noncomputable def baselineGuessF (rho T yp : ℝ) :
    Option ℝ × Option ℝ × Option ℝ :=
  (muF T (yp * rho / mamu_grams),
   muF T ((1 - yp) * rho / mamu_grams),
   mualphaF (muF T ((1 - yp) * rho / mamu_grams))
     (muF T (yp * rho / mamu_grams)))

/-- The alpha-dominant recomputed guess in the NaN-aware embedding. -/
noncomputable def alphaDominantGuessF (rho T yp : ℝ) :
    Option ℝ × Option ℝ × Option ℝ :=
  if yp < 0.5 then
    (muF T (min 0.01 yp * rho / mamu_grams),
     muF T (2 * (0.5 - yp) * rho / mamu_grams),
     mualphaF (muF T (2 * (0.5 - yp) * rho / mamu_grams))
       (muF T (min 0.01 yp * rho / mamu_grams)))
  else
    (muF T (2 * (yp - 0.499) * rho / mamu_grams),
     muF T (min 0.01 (1 - yp) * rho / mamu_grams),
     mualphaF (muF T (min 0.01 (1 - yp) * rho / mamu_grams))
       (muF T (2 * (yp - 0.499) * rho / mamu_grams)))

theorem nQ_pos {T A : ℝ} (hT : 0 < T) (hA : 0 < A) : 0 < nQ T A := by
  unfold nQ
  apply Real.rpow_pos_of_pos
  have hpi : (0:ℝ) < Real.pi := Real.pi_pos
  have hm : (0:ℝ) < mamuc2 := by norm_num [mamuc2]
  have hhc : (0:ℝ) < hc ^ 2 := by norm_num [hc]
  positivity

theorem X_pos {xmu xA xrho xT : ℝ} (hA : 0 < xA) (hrho : 0 < xrho)
    (hT : 0 < xT) : 0 < X xmu xA xrho xT := by
  unfold X
  have hq : 0 < nQ xT xA := nQ_pos hT hA
  have hN : (0:ℝ) < Navo := by norm_num [Navo]
  positivity

lemma T0_pos : 0 < T0 := by
  have hpi := Real.pi_pos
  have h1 : (0:ℝ) < hc ^ 2 := by norm_num [hc]
  have h2 : (0:ℝ) < mamuc2 := by norm_num [mamuc2]
  unfold T0
  positivity

lemma nQ_T0_one : nQ T0 1 = 1 := by
  have hpi : Real.pi ≠ 0 := Real.pi_ne_zero
  have h1 : mamuc2 ≠ 0 := by norm_num [mamuc2]
  have h2 : hc ≠ 0 := by norm_num [hc]
  have hbase : 2 * Real.pi * T0 * 1 * mamuc2 / hc ^ 2 = 1 := by
    unfold T0
    field_simp
    ring
  unfold nQ
  rw [hbase, Real.one_rpow]

/-- C1: the residual vector handed to the root-finder in `get_Xs`, at the
unknown vector `(mu_p, mu_n, mu_alpha)`, is exactly the triple of the
spec's constraints R1 (mass conservation), R2 (charge conservation) and R3
(the NSE alpha relation), in that order, with the alpha mass fraction
computed with mass number 4. -/
theorem LS_eq_spec_residuals (rho T yp mup mun mua : ℝ) :
    LS rho T yp (mup, mun, mua) =
      (1 - X mup 1 rho T - X mun 1 rho T - X mua 4 rho T,
       yp - X mup 1 rho T - X mua 4 rho T / 2,
       mua - (2 * mun + 2 * mup + 28.3)) := rfl

/-- C2: the mass-fraction conversion `X` returns exactly
`(A/(rho*N_A)) * nQ(T,A) * exp(mu/T)` with
`nQ(T,A) = (2*pi*T*A*mamuc2/hc^2)^1.5` and the fixed constants
`mamuc2 = 931.494103`, `N_A = 6.02214076e23`, `hc = 1.24e-10`, spelled
out literally. -/
theorem X_eq_spec_formula (xmu xA xrho xT : ℝ) :
    X xmu xA xrho xT =
      xA / (xrho * 6.02214076e23) *
        (2 * Real.pi * xT * xA * 931.494103 / (1.24e-10 : ℝ) ^ 2) ^ (1.5 : ℝ) *
        Real.exp (xmu / xT) := rfl

lemma get_Xs_guess_eq_branches (rho T yp : ℝ) :
    get_Xs_guess rho T yp =
      if (baselineGuess rho T yp).2.2 > (baselineGuess rho T yp).2.1 then
        alphaDominantGuess rho T yp
      else baselineGuess rho T yp := by
  simp only [get_Xs_guess, baselineGuess, alphaDominantGuess]
  split_ifs with h1 h2 <;> norm_num

/-- C3: the alpha-dominant recomputation in `get_Xs` is taken exactly when
the baseline-derived alpha potential exceeds the baseline neutron
potential; when taken it happens once (the seed is then exactly
`alphaDominantGuess`, which re-derives the guard condition no further),
and it uses the branch formulas of `alphaDominantGuess`; otherwise the
seed is exactly the baseline guess. -/
theorem get_Xs_guess_branch_policy (rho T yp : ℝ) :
    get_Xs_guess rho T yp =
      if (baselineGuess rho T yp).2.2 > (baselineGuess rho T yp).2.1 then
        alphaDominantGuess rho T yp
      else baselineGuess rho T yp :=
  get_Xs_guess_eq_branches rho T yp

lemma get_Xs_guessF_eq_branches (rho T yp : ℝ) :
    get_Xs_guessF rho T yp =
      if fgt (baselineGuessF rho T yp).2.2 (baselineGuessF rho T yp).2.1 then
        alphaDominantGuessF rho T yp
      else baselineGuessF rho T yp := by
  simp only [get_Xs_guessF, baselineGuessF, alphaDominantGuessF]
  split_ifs with h1 h2 <;> norm_num

/-- C5 (amended): `get_Xs` performs no domain validation at all — on an
invalid input (nonpositive density or temperature, or a proton fraction
outside the open unit interval) it runs exactly the same guess
computation as on a valid one, instead of rejecting it: under the
NaN-aware embedding the seed is still the baseline guess or, exactly when
the NaN-aware guard holds of the baseline, the alpha-dominant
recomputation. -/
theorem get_Xs_guessF_ignores_domain (rho T yp : ℝ)
    (_h : ¬ validDomain rho T yp) :
    get_Xs_guessF rho T yp =
      if fgt (baselineGuessF rho T yp).2.2 (baselineGuessF rho T yp).2.1 then
        alphaDominantGuessF rho T yp
      else baselineGuessF rho T yp :=
  get_Xs_guessF_eq_branches rho T yp

theorem get_Xs_guessF_ignores_domain_witness :
    ¬ validDomain 1 1 2 ∧
      get_Xs_guessF 1 1 2 =
        if fgt (baselineGuessF 1 1 2).2.2 (baselineGuessF 1 1 2).2.1 then
          alphaDominantGuessF 1 1 2
        else baselineGuessF 1 1 2 :=
  ⟨fun h => by norm_num [validDomain] at h,
   get_Xs_guessF_ignores_domain 1 1 2 (fun h => by norm_num [validDomain] at h)⟩

/-- C5 counterexample: at the invalid input
`(rho, T, yp) = (mamu_grams, T0, 2)` — invalid because `yp = 2` lies
outside `(0, 1)` — `get_Xs` does not reject.  Tracing the source under
IEEE semantics: the baseline neutron density `(1 - 2)*rho/mamu_grams` is
negative, so `munguess` is NaN and so is `mualphaguess`; the guard
`mualphaguess > munguess` compares NaN with NaN and is false, so the
alpha-dominant recomputation is skipped and the baseline seed
`(T0*log 2, NaN, NaN)` is kept and handed to the solver.  The guess phase
thus runs to completion and produces a numeric (NaN-containing) seed —
no rejection ever happens. -/
theorem get_Xs_guessF_no_rejection_counterexample :
    ¬ validDomain mamu_grams T0 2 ∧
      get_Xs_guessF mamu_grams T0 2 =
        (some (T0 * Real.log 2), none, none) := by
  have hm : mamu_grams ≠ 0 := by norm_num [mamu_grams]
  have hnp : (2:ℝ) * mamu_grams / mamu_grams = 2 := by
    rw [mul_div_assoc, div_self hm, mul_one]
  have hnn : ((1:ℝ) - 2) * mamu_grams / mamu_grams = -1 := by
    rw [mul_div_assoc, div_self hm, mul_one]; norm_num
  have hmuf2 : muF T0 2 = some (T0 * Real.log 2) := by
    unfold muF
    rw [nQ_T0_one, if_pos (by norm_num)]
    simp [mu, nQ_T0_one]
  have hmufn : muF T0 (-1) = none := by
    unfold muF
    rw [nQ_T0_one, if_neg (by norm_num)]
  constructor
  · intro h
    norm_num [validDomain] at h
  · simp only [get_Xs_guessF]
    rw [hnp, hnn, hmuf2, hmufn]
    have hma : mualphaF none (some (T0 * Real.log 2)) = none := rfl
    have hnot : ¬ fgt (none : Option ℝ) (none : Option ℝ) := by
      rintro ⟨x, y, hx, -, -⟩
      exact Option.noConfusion hx
    rw [hma, if_neg hnot]

/-- C6: the residual system is proton/neutron symmetric — at fixed `rho`
and `T`, a potential triple `(mu_p, mu_n, mu_alpha)` is an exact root of
the system for proton fraction `yp` exactly when the swapped triple
`(mu_n, mu_p, mu_alpha)` is an exact root for proton fraction `1 - yp`,
and the recovered mass fractions of the swapped triple are those of the
original with `X_p` and `X_n` exchanged and `X_alpha` unchanged. -/
theorem LS_swap_symmetry (rho T yp : ℝ) (v : ℝ × ℝ × ℝ) :
    (LS rho T (1 - yp) (v.2.1, v.1, v.2.2) = (0, 0, 0) ↔
      LS rho T yp v = (0, 0, 0)) ∧
    recoverX rho T (v.2.1, v.1, v.2.2) =
      ((recoverX rho T v).2.1, (recoverX rho T v).1,
        (recoverX rho T v).2.2) := by
  obtain ⟨p, q, a⟩ := v
  refine ⟨?_, rfl⟩
  simp only [LS, recoverX, mualpha, Prod.mk.injEq]
  constructor
  · rintro ⟨h1, h2, h3⟩
    refine ⟨by linarith, by linarith, by linarith⟩
  · rintro ⟨h1, h2, h3⟩
    refine ⟨by linarith, by linarith, by linarith⟩

/-- C7: converting a positive number density to a chemical potential with
`mu` and back to a mass fraction with `X` yields exactly
`A * n / (rho * Navo)`, the mass fraction corresponding to number density
`n`. -/
theorem X_mu_inverse (T n A rho : ℝ) (hT : 0 < T) (hn : 0 < n)
    (hA : 0 < A) (_hrho : 0 < rho) :
    X (mu T n A) A rho T = A * n / (rho * Navo) := by
  have hq : 0 < nQ T A := nQ_pos hT hA
  unfold X mu
  have hq' : nQ T A ≠ 0 := ne_of_gt hq
  rw [mul_div_cancel_left₀ _ (ne_of_gt hT), Real.exp_log (by positivity),
    mul_assoc, mul_comm (nQ T A) (n / nQ T A), div_mul_cancel₀ n hq']
  ring

theorem X_mu_inverse_witness :
    (0:ℝ) < 1 ∧ X (mu 1 1 1) 1 1 1 = 1 * 1 / (1 * Navo) :=
  ⟨one_pos, X_mu_inverse 1 1 1 1 one_pos one_pos one_pos one_pos⟩

/-- C8: for fixed positive `A`, `rho`, `T`, the mass fraction `X` is
strictly increasing in the chemical potential. -/
theorem X_strictMono_in_mu (A rho T mu1 mu2 : ℝ) (hA : 0 < A)
    (hrho : 0 < rho) (hT : 0 < T) (h : mu1 < mu2) :
    X mu1 A rho T < X mu2 A rho T := by
  unfold X
  have hq : 0 < nQ T A := nQ_pos hT hA
  have hN : (0:ℝ) < Navo := by norm_num [Navo]
  have hcoef : 0 < A / (rho * Navo) * nQ T A := by positivity
  exact mul_lt_mul_of_pos_left
    (Real.exp_lt_exp.mpr ((div_lt_div_iff_of_pos_right hT).mpr h)) hcoef

theorem X_strictMono_in_mu_witness :
    (0:ℝ) < 1 ∧ X 0 1 1 1 < X 1 1 1 1 :=
  ⟨one_pos, X_strictMono_in_mu 1 1 1 0 1 one_pos one_pos one_pos one_pos⟩

/-- C9: for `rho > 0`, `T > 0` and `yp` strictly inside `(0, 1)`, every
number density formed during guess construction is strictly positive: the
baseline densities, the two densities of the `yp < 0.5` alpha-dominant
branch under its guard, and the two densities of the `yp >= 0.5` branch
under its guard (in particular at `yp = 0.5` exactly, where the `0.499`
constant keeps the proton density positive); consequently every argument
handed to the logarithm inside `mu` (all guess conversions use `A = 1`)
is strictly positive. -/
theorem guess_densities_pos (rho T yp : ℝ) (hrho : 0 < rho) (hT : 0 < T)
    (h0 : 0 < yp) (h1 : yp < 1) :
    0 < yp * rho / mamu_grams ∧
    0 < (1 - yp) * rho / mamu_grams ∧
    (yp < 0.5 → 0 < min 0.01 yp * rho / mamu_grams ∧
      0 < 2 * (0.5 - yp) * rho / mamu_grams) ∧
    (0.5 ≤ yp → 0 < min 0.01 (1 - yp) * rho / mamu_grams ∧
      0 < 2 * (yp - 0.499) * rho / mamu_grams) ∧
    ∀ n : ℝ, 0 < n → 0 < n / nQ T 1 := by
  have hm : (0:ℝ) < mamu_grams := by norm_num [mamu_grams]
  refine ⟨by positivity, ?_, fun hy => ⟨?_, ?_⟩, fun hy => ⟨?_, ?_⟩, ?_⟩
  · have : 0 < 1 - yp := by linarith
    positivity
  · have : 0 < min 0.01 yp := lt_min (by norm_num) h0
    positivity
  · have : 0 < 0.5 - yp := by linarith
    positivity
  · have : 0 < min 0.01 (1 - yp) := lt_min (by norm_num) (by linarith)
    positivity
  · have : 0 < yp - 0.499 := by nlinarith
    positivity
  · intro n hn
    have hq : 0 < nQ T 1 := nQ_pos hT one_pos
    positivity

theorem guess_densities_pos_witness :
    (0:ℝ) < 1 ∧ (0:ℝ) < 1/2 ∧ (1/2:ℝ) < 1 ∧
    (0 < (1/2:ℝ) * 1 / mamu_grams ∧
     0 < (1 - 1/2 : ℝ) * 1 / mamu_grams ∧
     ((1/2:ℝ) < 0.5 → 0 < min 0.01 (1/2:ℝ) * 1 / mamu_grams ∧
       0 < 2 * ((0.5:ℝ) - 1/2) * 1 / mamu_grams) ∧
     ((0.5:ℝ) ≤ 1/2 → 0 < min 0.01 (1 - 1/2 : ℝ) * 1 / mamu_grams ∧
       0 < 2 * ((1/2:ℝ) - 0.499) * 1 / mamu_grams) ∧
     ∀ n : ℝ, 0 < n → 0 < n / nQ 1 1) :=
  ⟨one_pos, by norm_num, by norm_num,
   guess_densities_pos 1 1 (1/2) one_pos one_pos (by norm_num) (by norm_num)⟩

/-- C10: whatever potential triple the root-finder hands back, the
mass-fraction recovery step of `get_Xs` returns three strictly positive
components, because `X` is a positive coefficient times an exponential. -/
theorem recoverX_pos (rho T : ℝ) (v : ℝ × ℝ × ℝ) (hrho : 0 < rho)
    (hT : 0 < T) :
    0 < (recoverX rho T v).1 ∧ 0 < (recoverX rho T v).2.1 ∧
      0 < (recoverX rho T v).2.2 := by
  obtain ⟨p, q, a⟩ := v
  exact ⟨X_pos one_pos hrho hT, X_pos one_pos hrho hT,
    X_pos (by norm_num) hrho hT⟩

theorem recoverX_pos_witness :
    (0:ℝ) < 1 ∧
    (0 < (recoverX 1 1 (0, 0, 0)).1 ∧ 0 < (recoverX 1 1 (0, 0, 0)).2.1 ∧
      0 < (recoverX 1 1 (0, 0, 0)).2.2) :=
  ⟨one_pos, recoverX_pos 1 1 (0, 0, 0) one_pos one_pos⟩

/-- Algebraic content behind the conservation check: the first component
of the residual system is exactly `1` minus the sum of the recovered mass
fractions, so at any output of the solver the conservation defect equals
that residual component; in particular it vanishes at an exact root.
(Whether the external floating-point solver actually drives it below any
given tolerance is outside this development.) -/
lemma LS_first_component_eq_one_sub_sum (rho T yp : ℝ) (v : ℝ × ℝ × ℝ) :
    (LS rho T yp v).1 =
      1 - ((recoverX rho T v).1 + (recoverX rho T v).2.1 +
        (recoverX rho T v).2.2) := by
  obtain ⟨p, q, a⟩ := v
  simp only [LS, recoverX]
  ring

end NSE
